import Mathlib

/-!
# Verification of the `resolve-path` crate (`src/lib.rs`)

Shallow embedding of the path-resolution library. A path is modelled as its
underlying byte sequence (Unix `OsStr` semantics): `Bytes := List Nat`, with
the separator byte `47` (`'/'`) and the tilde byte `126` (`'~'`).

The pieces of `std::path` that the crate relies on (`is_absolute`,
`starts_with`, `parent`, `join`/`push`, component-wise path equality,
UTF-8 validity for `to_str`) are translated from the Rust standard library's
Unix implementation.  The crate's own functions (`try_resolve_path`,
`resolve_tilde`, `resolve_tilde_with_home`, the `PathResolveExt` methods)
are translated from `src/lib.rs`, parameterised over the environment:
the home directory (`Option Bytes`, the result of `home_dir()`), the
file-system metadata oracle (`Bytes → Option Bool`, where `some b` stands for
`Ok(meta)` with `meta.is_file() = b`, and `none` stands for any `Err(_)`),
and the current working directory (`Option Bytes`).
-/

namespace ResolvePath

/-- A path as its underlying byte sequence (Unix `OsStr`). -/
abbrev Bytes := List Nat

/-- `Path::is_absolute` on Unix: the path has a root, i.e. begins with `/`. -/
def isAbsolute : Bytes → Bool
  | [] => false
  | b :: _ => b == 47

/-- `Path::is_relative` = `!is_absolute`. -/
def isRelative (p : Bytes) : Bool := ! isAbsolute p

/-- `std::path::Component` (Unix: no `Prefix` components). -/
inductive Component : Type where
  | rootDir : Component
  | curDir : Component
  | parentDir : Component
  | normal : Bytes → Component
deriving DecidableEq

/-- Split a byte sequence at every separator byte (like splitting on `/`). -/
def splitSep : Bytes → List Bytes
  | [] => [[]]
  | b :: rest =>
    match splitSep rest with
    | [] => [[]]
    | s :: ss => if b = 47 then [] :: s :: ss else (b :: s) :: ss

/-- Turn the separator-split segments into `Component`s, as the forward
`Components` iterator does: empty segments are skipped, `.` segments are
skipped except as the literal first segment of a rootless path
(`include_cur_dir`), `..` is `ParentDir`, everything else is `Normal`. -/
def segComponents : Bool → List Bytes → List Component
  | _, [] => []
  | ic, s :: rest =>
    if s = [] then segComponents false rest
    else if s = [46] then
      (if ic then [Component.curDir] else []) ++ segComponents false rest
    else if s = [46, 46] then Component.parentDir :: segComponents false rest
    else Component.normal s :: segComponents false rest

/-- `Path::components` on Unix: an optional `RootDir`, then the body
segments. -/
def components (p : Bytes) : List Component :=
  if isAbsolute p then Component.rootDir :: segComponents false (splitSep p)
  else segComponents true (splitSep p)

/-- `Path::starts_with`: component-wise prefix test. -/
def pathStartsWith (p base : Bytes) : Bool :=
  decide (components base <+: components p)

/-- `PartialEq for Path`: equality of the component sequences. -/
def pathEq (p q : Bytes) : Bool :=
  decide (components p = components q)

/-- `PathBuf::push` / `Path::join` on Unix: an absolute argument replaces the
base; otherwise a separator is inserted exactly when the base is non-empty and
does not already end with one, and the argument's bytes are appended. -/
def pathPush (base p : Bytes) : Bytes :=
  if isAbsolute p then p
  else
    match base.getLast? with
    | some b => if b = 47 then base ++ p else base ++ 47 :: p
    | none => base ++ p

/-- `include_cur_dir` of the `Components` iterator: the path has no root and
its first segment is literally `.`. -/
def includeCurDir : Bytes → Bool
  | [] => false
  | [b] => b == 46
  | b :: c :: _ => b == 46 && c == 47

/-- The UTF-8 validation automaton (the success condition of `OsStr::to_str` /
`str::from_utf8`), including the overlong-encoding and surrogate
restrictions.  The state is `none` when the next byte must start a code
point, and `some (n, lo, hi)` when `n` continuation bytes are still expected,
the immediate next one constrained to `lo..=hi` (subsequent continuation
bytes are the plain `0x80..=0xBF` range). -/
def utf8Go : Option (Nat × Nat × Nat) → Bytes → Bool
  | none, [] => true
  | none, b :: rest =>
    if b ≤ 127 then utf8Go none rest
    else if 194 ≤ b ∧ b ≤ 223 then utf8Go (some (1, 128, 191)) rest
    else if b = 224 then utf8Go (some (2, 160, 191)) rest
    else if 225 ≤ b ∧ b ≤ 236 then utf8Go (some (2, 128, 191)) rest
    else if b = 237 then utf8Go (some (2, 128, 159)) rest
    else if 238 ≤ b ∧ b ≤ 239 then utf8Go (some (2, 128, 191)) rest
    else if b = 240 then utf8Go (some (3, 144, 191)) rest
    else if 241 ≤ b ∧ b ≤ 243 then utf8Go (some (3, 128, 191)) rest
    else if b = 244 then utf8Go (some (3, 128, 143)) rest
    else false
  | some _, [] => false
  | some (n, lo, hi), b :: rest =>
    if lo ≤ b ∧ b ≤ hi then
      if n ≤ 1 then utf8Go none rest
      else utf8Go (some (n - 1, 128, 191)) rest
    else false

/-- Validity of a byte sequence as UTF-8. -/
def isValidUtf8 (p : Bytes) : Bool := utf8Go none p

/-- The skipping loop of the backward `Components` iterator
(`next_back` / `parse_next_component_back`), expressed on the reversed
separator-split segment list of the body: empty and `.` segments parse to
nothing and are skipped (each together with its preceding separator), and the
first surviving segment is the component.  Returns that component and the
reversed segment list of the unconsumed bytes. -/
def backSegs : List Bytes → Option (Component × List Bytes)
  | [] => none
  | s :: rest =>
    if s = [] ∨ s = [46] then backSegs rest
    else if s = [46, 46] then some (Component.parentDir, rest)
    else some (Component.normal s, rest)

/-- One backward step of the `Components` iterator on the body region.
Since `List.intercalate [47] (splitSep body) = body`, removing a trailing
segment from the split (with the separator that preceded it) is exactly the
byte-slicing the Rust iterator performs. -/
def backParse (body : Bytes) : Option (Component × Bytes) :=
  match backSegs (splitSep body).reverse with
  | none => none
  | some (c, restRev) => some (c, List.intercalate [47] restRev.reverse)

/-- `Components::trim_right` (as invoked by `as_path` after `Path::parent`
consumed the final component): drop trailing separators together with empty
and `.` segments, stopping at the first real component. -/
def trimRight (body : Bytes) : Bytes :=
  List.intercalate [47]
    (((splitSep body).reverse.dropWhile (fun s => decide (s = [] ∨ s = [46]))).reverse)

/-- `Path::parent` on Unix: strip the final real component (returning the
prefix with trailing separators and `.`/empty segments trimmed); `none` when
the path is empty or consists only of a root. -/
def parent (p : Bytes) : Option Bytes :=
  let pl := (if isAbsolute p then 1 else 0) + (if includeCurDir p then 1 else 0)
  match backParse (p.drop pl) with
  | some (_, rest) => some (p.take pl ++ trimRight rest)
  | none =>
    if isAbsolute p then none
    else if includeCurDir p then some []
    else none

/-- `Cow<'_, Path>`: either the borrowed input path or an owned buffer. -/
inductive Cow : Type where
  | borrowed : Bytes → Cow
  | owned : Bytes → Cow
deriving DecidableEq

/-- The byte content of either `Cow` variant (`Deref` / `into_owned`). -/
def Cow.path : Cow → Bytes
  | borrowed p => p
  | owned p => p

/-- The error kinds the crate can produce, named after the spec's taxonomy;
they correspond to the crate's distinct error constructions. -/
inductive ResolveError : Type where
  | cwdUnavailable : ResolveError
  | homeNotFound : ResolveError
  | invalidBase : ResolveError
  | noParentDirectory : ResolveError
deriving DecidableEq

deriving instance DecidableEq for Except

/-- `resolve_tilde_with_home(home, path)` from `src/lib.rs`. -/
def resolve_tilde_with_home (home path : Bytes) : Cow :=
  if pathStartsWith path [126] then
    if isValidUtf8 path then
      let stripped := path.drop 1
      if stripped = [] then Cow.owned home
      else if stripped.head? = some 47 then
        Cow.owned (pathPush home (stripped.dropWhile (fun b => b == 47)))
      else Cow.borrowed path
    else Cow.borrowed path
  else Cow.borrowed path

/-- `resolve_tilde(path)` from `src/lib.rs`, with `home_dir()`'s answer as a
parameter: `none` produces the `HomeNotFound` error. -/
def resolve_tilde (home? : Option Bytes) (path : Bytes) : Except ResolveError Cow :=
  match home? with
  | none => Except.error ResolveError.homeNotFound
  | some home => Except.ok (resolve_tilde_with_home home path)

/-- The `absolute_base` computation of `try_resolve_path`: an absolute base is
used as-is; otherwise the base is tilde-resolved and must come out absolute,
else `InvalidBase`. -/
def resolveAbsoluteBase (home? : Option Bytes) (base : Bytes) :
    Except ResolveError Bytes :=
  if isAbsolute base then Except.ok base
  else
    match resolve_tilde home? base with
    | Except.error e => Except.error e
    | Except.ok c =>
      if isRelative c.path then Except.error ResolveError.invalidBase
      else Except.ok c.path

/-- The `base_directory` computation of `try_resolve_path`: one
`std::fs::metadata` query; a regular file yields its parent directory (or the
`NoParentDirectory` error); anything else, including a failed query, yields
the base unchanged. -/
def classifyBaseDirectory (fs : Bytes → Option Bool) (absolute_base : Bytes) :
    Except ResolveError Bytes :=
  match fs absolute_base with
  | some true =>
    match parent absolute_base with
    | some par => Except.ok par
    | none => Except.error ResolveError.noParentDirectory
  | some false => Except.ok absolute_base
  | none => Except.ok absolute_base

/-- `try_resolve_path(base, to_resolve)` from `src/lib.rs`. -/
def try_resolve_path (home? : Option Bytes) (fs : Bytes → Option Bool)
    (base to_resolve : Bytes) : Except ResolveError Cow :=
  if isAbsolute to_resolve then Except.ok (Cow.borrowed to_resolve)
  else if pathStartsWith to_resolve [126] then
    match resolve_tilde home? to_resolve with
    | Except.error e => Except.error e
    | Except.ok resolved => Except.ok resolved
  else
    match resolveAbsoluteBase home? base with
    | Except.error e => Except.error e
    | Except.ok absolute_base =>
      match classifyBaseDirectory fs absolute_base with
      | Except.error e => Except.error e
      | Except.ok base_directory =>
        Except.ok (Cow.owned (pathPush base_directory to_resolve))

/-- `PathResolveExt::try_resolve_in`: `try_resolve_path(base.as_ref(),
Path::new(self))`. -/
def try_resolve_in (home? : Option Bytes) (fs : Bytes → Option Bool)
    (self base : Bytes) : Except ResolveError Cow :=
  try_resolve_path home? fs base self

/-- `PathResolveExt::try_resolve`: resolve against the current working
directory; `none` for the cwd produces the `CwdUnavailable` error. -/
def try_resolve (home? : Option Bytes) (fs : Bytes → Option Bool)
    (cwd? : Option Bytes) (self : Bytes) : Except ResolveError Cow :=
  match cwd? with
  | none => Except.error ResolveError.cwdUnavailable
  | some cwd => try_resolve_path home? fs cwd self

/-- ASCII string literals as byte sequences (used only for concrete
test inputs, all of which are ASCII). -/
def pstr (s : String) : Bytes := s.data.map Char.toNat

/-! ## Lemmas about the path model -/

theorem splitSep_ne_nil (p : Bytes) : splitSep p ≠ [] := by
  cases p with
  | nil => simp [splitSep]
  | cons b rest =>
    simp only [splitSep]
    cases splitSep rest with
    | nil => simp
    | cons s ss => by_cases hb : b = 47 <;> simp [hb]

theorem splitSep_exists (p : Bytes) : ∃ s ss, splitSep p = s :: ss :=
  List.exists_cons_of_ne_nil (splitSep_ne_nil p)

theorem splitSep_sep (r : Bytes) : splitSep (47 :: r) = [] :: splitSep r := by
  obtain ⟨s, ss, h⟩ := splitSep_exists r
  simp [splitSep, h]

theorem splitSep_cons_of_ne (b : Nat) (r : Bytes) (hb : b ≠ 47) :
    ∃ s ss, splitSep r = s :: ss ∧ splitSep (b :: r) = (b :: s) :: ss := by
  obtain ⟨s, ss, h⟩ := splitSep_exists r
  exact ⟨s, ss, h, by simp [splitSep, h, hb]⟩

theorem splitSep_append_sep (p q : Bytes) :
    splitSep (p ++ 47 :: q) = splitSep p ++ splitSep q := by
  induction p with
  | nil => rw [List.nil_append, splitSep_sep]; rfl
  | cons b p ih =>
    by_cases hb : b = 47
    · subst hb
      rw [List.cons_append, splitSep_sep, splitSep_sep, ih, List.cons_append]
    · obtain ⟨s, ss, h1, h2⟩ := splitSep_cons_of_ne b p hb
      obtain ⟨s', ss', h1', h2'⟩ := splitSep_cons_of_ne b (p ++ 47 :: q) hb
      rw [List.cons_append, h2', h2, List.cons_append]
      rw [ih, h1, List.cons_append] at h1'
      obtain ⟨rfl, rfl⟩ : s' = s ∧ ss' = ss ++ splitSep q := by
        injection h1' with hh ht
        exact ⟨hh.symm, ht.symm⟩
      rfl

theorem segComponents_append_skip (x : Bytes) (hx : x = [] ∨ x = [46]) :
    ∀ (segs : List Bytes) (ic : Bool), (segs = [] → ic = false) →
      segComponents ic (segs ++ [x]) = segComponents ic segs := by
  intro segs
  induction segs with
  | nil =>
    intro ic hic
    rw [hic rfl]
    rcases hx with h | h <;> subst h <;> simp [segComponents]
  | cons s rest ih =>
    intro ic _
    simp only [List.cons_append, segComponents]
    have ih' := ih false (fun _ => rfl)
    split_ifs <;> simp [ih']

theorem isAbsolute_append_left (p q : Bytes) (hp : p ≠ []) :
    isAbsolute (p ++ q) = isAbsolute p := by
  cases p with
  | nil => contradiction
  | cons b t => simp [isAbsolute]

theorem components_append_sep_seg (p x : Bytes) (hp : p ≠ []) (hx : x = [] ∨ x = [46]) :
    components (p ++ 47 :: x) = components p := by
  have habs : isAbsolute (p ++ 47 :: x) = isAbsolute p := isAbsolute_append_left p _ hp
  have hsx : splitSep x = [x] := by rcases hx with h | h <;> subst h <;> rfl
  have hsplit : splitSep (p ++ 47 :: x) = splitSep p ++ [x] := by
    rw [splitSep_append_sep, hsx]
  unfold components
  rw [habs, hsplit]
  by_cases h : isAbsolute p = true
  · simp [h, segComponents_append_skip x hx (splitSep p) false (fun _ => rfl)]
  · simp [h,
      segComponents_append_skip x hx (splitSep p) true
        (fun hc => absurd hc (splitSep_ne_nil p))]

theorem pathPush_of_getLast_sep (base q : Bytes) (h : base.getLast? = some 47)
    (hq : isAbsolute q = false) : pathPush base q = base ++ q := by
  simp [pathPush, hq, h]

theorem pathPush_of_getLast_ne (base q : Bytes) (b : Nat) (h : base.getLast? = some b)
    (hb : b ≠ 47) (hq : isAbsolute q = false) : pathPush base q = base ++ 47 :: q := by
  simp [pathPush, hq, h, hb]

theorem pathPush_of_nil (q : Bytes) (hq : isAbsolute q = false) : pathPush [] q = q := by
  simp [pathPush, hq]

theorem components_pathPush_skipseg (base x : Bytes) (hbase : base ≠ [])
    (hx : x = [] ∨ x = [46]) : components (pathPush base x) = components base := by
  have hxabs : isAbsolute x = false := by rcases hx with h | h <;> subst h <;> rfl
  cases hlast : base.getLast? with
  | none => exact absurd (List.getLast?_eq_none_iff.mp hlast) hbase
  | some b =>
    by_cases hb : b = 47
    · subst hb
      rw [pathPush_of_getLast_sep base x hlast hxabs]
      obtain ⟨b', rfl⟩ := List.getLast?_eq_some_iff.mp hlast
      by_cases hb' : b' = []
      · subst hb'
        rcases hx with h | h <;> subst h <;> decide
      · have h1 : (b' ++ [47]) ++ x = b' ++ 47 :: x := by simp
        rw [h1, components_append_sep_seg b' x hb' hx]
        have h2 : b' ++ [47] = b' ++ 47 :: ([] : Bytes) := by simp
        rw [h2, components_append_sep_seg b' ([] : Bytes) hb' (Or.inl rfl)]
    · rw [pathPush_of_getLast_ne base x b hlast hb hxabs]
      exact components_append_sep_seg base x hbase hx

theorem segComponents_head_normal_true (s : Bytes) (ss : List Bytes) (c : Bytes)
    (t : List Component) (hs : s ≠ [])
    (h : segComponents true (s :: ss) = Component.normal c :: t) : s = c := by
  rw [segComponents] at h
  split_ifs at h with h1 h2 h3 h4
  · exact absurd h1 hs
  · simp at h
  · exact absurd rfl h3
  · simp at h
  · simp only [List.cons.injEq, Component.normal.injEq] at h
    exact h.1

theorem components_tilde_cons (r : Bytes) (hr : r = [] ∨ r.head? = some 47) :
    ∃ t, components (126 :: r) = Component.normal [126] :: t := by
  rcases hr with rfl | hr
  · exact ⟨[], by decide⟩
  · cases r with
    | nil => simp at hr
    | cons c r' =>
      obtain rfl : c = 47 := by simpa using hr
      obtain ⟨s, ss, h1, h2⟩ := splitSep_cons_of_ne 126 (47 :: r') (by decide)
      rw [splitSep_sep] at h1
      obtain ⟨rfl, rfl⟩ : s = [] ∧ ss = splitSep r' := by
        injection h1 with hh ht
        exact ⟨hh.symm, ht.symm⟩
      refine ⟨segComponents false (splitSep r'), ?_⟩
      have habs : isAbsolute (126 :: 47 :: r') = false := rfl
      rw [components, habs]
      simp only [Bool.false_eq_true, if_false]
      rw [h2, segComponents]
      simp

theorem pathStartsWith_tilde (r : Bytes) (hr : r = [] ∨ r.head? = some 47) :
    pathStartsWith (126 :: r) [126] = true := by
  obtain ⟨t, ht⟩ := components_tilde_cons r hr
  have hc : components [126] = [Component.normal [126]] := by decide
  rw [pathStartsWith, hc, ht]
  exact decide_eq_true ⟨t, rfl⟩

theorem splitSep_eq_nil_cons (r : Bytes) (ss : List Bytes) (h : splitSep r = [] :: ss) :
    r = [] ∨ r.head? = some 47 := by
  cases r with
  | nil => exact Or.inl rfl
  | cons c r' =>
    by_cases hc : c = 47
    · exact Or.inr (by simp [hc])
    · obtain ⟨s', ss', h1', h2'⟩ := splitSep_cons_of_ne c r' hc
      rw [h2'] at h
      injection h with hh _
      exact absurd hh.symm (by simp)

theorem tilde_shape (p : Bytes) (h : pathStartsWith p [126] = true) :
    ∃ r, p = 126 :: r ∧ (r = [] ∨ r.head? = some 47) := by
  have hc : components [126] = [Component.normal [126]] := by decide
  rw [pathStartsWith, hc] at h
  obtain ⟨t, ht⟩ : [Component.normal [126]] <+: components p := of_decide_eq_true h
  cases p with
  | nil =>
    have hnil : components ([] : Bytes) = [] := by decide
    rw [hnil] at ht
    simp at ht
  | cons b r =>
    by_cases hb : b = 47
    · subst hb
      have habs : isAbsolute (47 :: r) = true := rfl
      rw [components, habs, if_pos rfl] at ht
      simp at ht
    · obtain ⟨s, ss, h1, h2⟩ := splitSep_cons_of_ne b r hb
      have habs : isAbsolute (b :: r) = false := by simp [isAbsolute, hb]
      rw [components, habs] at ht
      simp only [Bool.false_eq_true, if_false] at ht
      rw [h2] at ht
      rw [List.singleton_append] at ht
      have hbs : b :: s = [126] :=
        segComponents_head_normal_true (b :: s) ss [126] t (by simp) ht.symm
      obtain ⟨rfl, rfl⟩ : b = 126 ∧ s = [] := by
        injection hbs with hh htl
        exact ⟨hh, htl⟩
      exact ⟨r, rfl, splitSep_eq_nil_cons r ss h1⟩

theorem not_abs_of_tilde (p : Bytes) (h : pathStartsWith p [126] = true) :
    isAbsolute p = false := by
  obtain ⟨r, rfl, _⟩ := tilde_shape p h
  rfl

theorem isValidUtf8_cons_ascii (b : Nat) (l : Bytes) (hb : b ≤ 127) :
    isValidUtf8 (b :: l) = isValidUtf8 l := by
  simp [isValidUtf8, utf8Go, hb]

theorem isValidUtf8_replicate47 (n : Nat) (rest : Bytes) :
    isValidUtf8 (List.replicate n 47 ++ rest) = isValidUtf8 rest := by
  induction n with
  | zero => rfl
  | succ n ih =>
    rw [List.replicate_succ, List.cons_append, isValidUtf8_cons_ascii 47 _ (by norm_num), ih]

theorem dropWhile47_replicate (n : Nat) (rest : Bytes) :
    List.dropWhile (fun b => b == 47) (List.replicate n 47 ++ rest)
      = List.dropWhile (fun b => b == 47) rest := by
  induction n with
  | zero => rfl
  | succ n ih =>
    rw [List.replicate_succ, List.cons_append, List.dropWhile_cons]
    simp [ih]

theorem dropWhile47_of_head_ne (rest : Bytes) (h : rest.head? ≠ some 47) :
    List.dropWhile (fun b => b == 47) rest = rest := by
  cases rest with
  | nil => rfl
  | cons c r =>
    have hc : ¬ (c = 47) := fun hh => h (by simp [hh])
    simp [List.dropWhile_cons, hc]

theorem isAbsolute_dropWhile47 (l : Bytes) :
    isAbsolute (List.dropWhile (fun b => b == 47) l) = false := by
  induction l with
  | nil => rfl
  | cons b t ih =>
    by_cases hb : b = 47
    · simpa [List.dropWhile_cons, hb] using ih
    · simp [List.dropWhile_cons, hb, isAbsolute]

theorem isAbsolute_pathPush (b q : Bytes) (hb : isAbsolute b = true)
    (hq : isAbsolute q = false) : isAbsolute (pathPush b q) = true := by
  cases b with
  | nil => simp [isAbsolute] at hb
  | cons x t =>
    have hx : x = 47 := by simpa [isAbsolute] using hb
    subst hx
    cases hlast : (47 :: t : Bytes).getLast? with
    | none => simp [List.getLast?_eq_none_iff] at hlast
    | some c =>
      by_cases hc : c = 47
      · subst hc
        rw [pathPush_of_getLast_sep _ _ hlast hq]
        simp [isAbsolute]
      · rw [pathPush_of_getLast_ne _ _ c hlast hc hq]
        simp [isAbsolute]

theorem includeCurDir_of_abs (p : Bytes) (h : isAbsolute p = true) :
    includeCurDir p = false := by
  cases p with
  | nil => simp [isAbsolute] at h
  | cons b t =>
    have hb : b = 47 := by simpa [isAbsolute] using h
    subst hb
    cases t with
    | nil => rfl
    | cons c t' => rfl

theorem parent_abs (p q : Bytes) (hp : isAbsolute p = true) (h : parent p = some q) :
    isAbsolute q = true := by
  rw [parent, hp, includeCurDir_of_abs p hp] at h
  simp only [if_true, Bool.false_eq_true, if_false, Nat.add_zero] at h
  cases hbp : backParse (p.drop 1) with
  | none =>
    rw [hbp] at h
    simp at h
  | some pr =>
    obtain ⟨c, rest⟩ := pr
    rw [hbp] at h
    simp only [Option.some.injEq] at h
    cases p with
    | nil => simp [isAbsolute] at hp
    | cons b t =>
      have hb : b = 47 := by simpa [isAbsolute] using hp
      subst hb
      rw [← h]
      simp [isAbsolute]

theorem resolveAbsoluteBase_abs (home? : Option Bytes) (base ab : Bytes)
    (h : resolveAbsoluteBase home? base = Except.ok ab) : isAbsolute ab = true := by
  rw [resolveAbsoluteBase] at h
  by_cases hb : isAbsolute base = true
  · rw [if_pos hb] at h
    injection h with h'
    exact h' ▸ hb
  · rw [if_neg hb] at h
    cases home? with
    | none => simp [resolve_tilde] at h
    | some home =>
      simp only [resolve_tilde] at h
      by_cases hrel : isRelative (resolve_tilde_with_home home base).path = true
      · rw [if_pos hrel] at h
        simp at h
      · rw [if_neg hrel] at h
        injection h with h'
        rw [← h']
        simpa [isRelative] using hrel

theorem resolve_tilde_with_home_eq (home r : Bytes)
    (hr : r = [] ∨ r.head? = some 47) (hv : isValidUtf8 (126 :: r) = true) :
    resolve_tilde_with_home home (126 :: r) =
      (if r = [] then Cow.owned home
       else Cow.owned (pathPush home (r.dropWhile (fun b => b == 47)))) := by
  rw [resolve_tilde_with_home, if_pos (pathStartsWith_tilde r hr), if_pos hv]
  rcases hr with rfl | hr
  · simp
  · cases r with
    | nil => simp at hr
    | cons c r' =>
      obtain rfl : c = 47 := by simpa using hr
      simp

theorem pathEq_pathPush_nil (home : Bytes) : pathEq (pathPush home []) home = true := by
  by_cases hh : home = []
  · subst hh; decide
  · rw [pathEq, components_pathPush_skipseg home [] hh (Or.inl rfl)]
    exact decide_eq_true rfl

/-! ## Claims -/

/-- C1: a candidate that is already absolute (and has no leading tilde) is
returned unchanged as `Cow::Borrowed`, for every base, home directory and
file system: no tilde resolution of the base and no file-system query can
influence the result. -/
theorem c1_absolute_passthrough (home? : Option Bytes) (fs : Bytes → Option Bool)
    (base p : Bytes) (habs : isAbsolute p = true)
    (_htilde : pathStartsWith p [126] = false) :
    try_resolve_in home? fs p base = Except.ok (Cow.borrowed p) := by
  rw [try_resolve_in, try_resolve_path, if_pos habs]

theorem c1_witness :
    isAbsolute (pstr "/etc/x.conf") = true
  ∧ pathStartsWith (pstr "/etc/x.conf") [126] = false
  ∧ try_resolve_in (some (pstr "/home/test")) (fun _ => none) (pstr "/etc/x.conf")
      (pstr "/home/user/.app") = Except.ok (Cow.borrowed (pstr "/etc/x.conf")) :=
  ⟨by decide, by decide,
    c1_absolute_passthrough (some (pstr "/home/test")) (fun _ => none)
      (pstr "/home/user/.app") (pstr "/etc/x.conf") (by decide) (by decide)⟩

/-- C2 (counterexample): the candidate `~user` begins with the tilde byte,
yet `try_resolve_in` joins it onto the base (Rust's component-wise
`starts_with` does not see `~user` as having a `~` prefix), the result is not
the Tilde Resolver's result, and the base does influence the outcome. -/
theorem c2_counterexample :
    try_resolve_in (some (pstr "/home/test")) (fun _ => none) (pstr "~user") (pstr "/a")
        = Except.ok (Cow.owned (pstr "/a/~user"))
  ∧ resolve_tilde (some (pstr "/home/test")) (pstr "~user")
        = Except.ok (Cow.borrowed (pstr "~user"))
  ∧ try_resolve_in (some (pstr "/home/test")) (fun _ => none) (pstr "~user") (pstr "/a")
      ≠ try_resolve_in (some (pstr "/home/test")) (fun _ => none) (pstr "~user") (pstr "/b") :=
  ⟨by decide, by decide, by decide⟩

/-- C2 (amended): for every candidate whose first path component is exactly
`~` (the forms `~`, `~/`, `~/rest`; not `~user`), `try_resolve_in` returns
exactly the result of `resolve_tilde` on the candidate with the live home
directory, and the base plays no role. -/
theorem c2_tilde_delegates (home? : Option Bytes) (fs : Bytes → Option Bool)
    (base p : Bytes) (h : pathStartsWith p [126] = true) :
    try_resolve_in home? fs p base = resolve_tilde home? p := by
  have hna : ¬ (isAbsolute p = true) := by
    rw [not_abs_of_tilde p h]
    exact Bool.false_ne_true
  rw [try_resolve_in, try_resolve_path, if_neg hna, if_pos h]
  cases hrt : resolve_tilde home? p with
  | error e => rfl
  | ok c => rfl

theorem c2_witness :
    pathStartsWith (pstr "~/.config/x") [126] = true
  ∧ try_resolve_in (some (pstr "/home/test")) (fun _ => none) (pstr "~/.config/x")
        (pstr "/tmp")
      = resolve_tilde (some (pstr "/home/test")) (pstr "~/.config/x") :=
  ⟨by decide,
    c2_tilde_delegates (some (pstr "/home/test")) (fun _ => none) (pstr "/tmp")
      (pstr "~/.config/x") (by decide)⟩

/-- C3: for every home directory, `~` followed by zero or more separators
resolves to the home directory itself (as Rust path equality, i.e. equality
of components), and `~` followed by one or more separators and a remainder
that does not itself start with a separator resolves to the home directory
joined with the remainder, all boundary separators stripped. -/
theorem c3_tilde_resolver (home rest : Bytes) (n : Nat) :
    pathEq (resolve_tilde_with_home home (126 :: List.replicate n 47)).path home = true
  ∧ (1 ≤ n → rest ≠ [] → rest.head? ≠ some 47 → isValidUtf8 rest = true →
      resolve_tilde_with_home home (126 :: (List.replicate n 47 ++ rest))
        = Cow.owned (pathPush home rest)) := by
  constructor
  · have hv : isValidUtf8 (126 :: List.replicate n 47) = true := by
      rw [isValidUtf8_cons_ascii 126 _ (by norm_num)]
      have := isValidUtf8_replicate47 n []
      rwa [List.append_nil] at this
    have hr : List.replicate n 47 = [] ∨ (List.replicate n 47).head? = some 47 := by
      cases n with
      | zero => exact Or.inl rfl
      | succ m => exact Or.inr (by rw [List.replicate_succ]; rfl)
    rw [resolve_tilde_with_home_eq home (List.replicate n 47) hr hv]
    cases n with
    | zero => simp [pathEq, Cow.path]
    | succ m =>
      rw [if_neg (by simp [List.replicate_succ])]
      have hdw : (List.replicate (m + 1) 47).dropWhile (fun b => b == 47) = [] := by
        have := dropWhile47_replicate (m + 1) []
        rwa [List.append_nil] at this
      rw [hdw]
      exact pathEq_pathPush_nil home
  · intro hn hrest hhead hv
    have hr : List.replicate n 47 ++ rest = [] ∨
        (List.replicate n 47 ++ rest).head? = some 47 := by
      cases n with
      | zero => omega
      | succ m => exact Or.inr (by rw [List.replicate_succ]; rfl)
    have hv' : isValidUtf8 (126 :: (List.replicate n 47 ++ rest)) = true := by
      rw [isValidUtf8_cons_ascii 126 _ (by norm_num), isValidUtf8_replicate47]
      exact hv
    rw [resolve_tilde_with_home_eq home _ hr hv']
    rw [if_neg (by cases n with | zero => omega | succ m => simp [List.replicate_succ])]
    rw [dropWhile47_replicate, dropWhile47_of_head_ne rest hhead]

theorem c3_witness :
    pathEq (resolve_tilde_with_home (pstr "/home/test")
        (126 :: List.replicate 5 47)).path (pstr "/home/test") = true
  ∧ resolve_tilde_with_home (pstr "/home/test")
        (126 :: (List.replicate 5 47 ++ pstr ".config"))
      = Cow.owned (pathPush (pstr "/home/test") (pstr ".config")) :=
  ⟨(c3_tilde_resolver (pstr "/home/test") (pstr ".config") 5).1,
    (c3_tilde_resolver (pstr "/home/test") (pstr ".config") 5).2
      (by norm_num) (by decide) (by decide) (by decide)⟩

/-- C4: for a relative non-tilde candidate, once the base has resolved to an
absolute path `ab`, the effective base directory is decided by the single
file-system query on `ab`: a regular file uses `ab`'s parent (or fails with
`NoParentDirectory` when there is none); anything else — including a failed
query, whose error is never propagated — uses `ab` as-is. -/
theorem c4_base_classification (home? : Option Bytes) (fs : Bytes → Option Bool)
    (base cand ab : Bytes)
    (h1 : isAbsolute cand = false) (h2 : pathStartsWith cand [126] = false)
    (h3 : resolveAbsoluteBase home? base = Except.ok ab) :
    (∀ par, fs ab = some true → parent ab = some par →
        try_resolve_in home? fs cand base = Except.ok (Cow.owned (pathPush par cand)))
  ∧ (fs ab = some true → parent ab = none →
        try_resolve_in home? fs cand base = Except.error ResolveError.noParentDirectory)
  ∧ (fs ab = some false →
        try_resolve_in home? fs cand base = Except.ok (Cow.owned (pathPush ab cand)))
  ∧ (fs ab = none →
        try_resolve_in home? fs cand base = Except.ok (Cow.owned (pathPush ab cand))) := by
  have key : ∀ r : Except ResolveError Bytes, classifyBaseDirectory fs ab = r →
      try_resolve_in home? fs cand base =
        (match r with
          | Except.error e => Except.error e
          | Except.ok bd => Except.ok (Cow.owned (pathPush bd cand))) := by
    intro r hr
    rw [try_resolve_in, try_resolve_path, if_neg (by simp [h1]), if_neg (by simp [h2]), h3]
    dsimp only
    rw [hr]
  refine ⟨?_, ?_, ?_, ?_⟩
  · intro par hfs hpar
    exact key (Except.ok par) (by simp [classifyBaseDirectory, hfs, hpar])
  · intro hfs hpar
    exact key (Except.error ResolveError.noParentDirectory)
      (by simp [classifyBaseDirectory, hfs, hpar])
  · intro hfs
    exact key (Except.ok ab) (by simp [classifyBaseDirectory, hfs])
  · intro hfs
    exact key (Except.ok ab) (by simp [classifyBaseDirectory, hfs])

theorem c4_witness :
    try_resolve_in (some (pstr "/home/test")) (fun _ => some true) (pstr "./other.txt")
      (pstr "/tmp/marker.txt") = Except.ok (Cow.owned (pathPush (pstr "/tmp") (pstr "./other.txt"))) :=
  (c4_base_classification (some (pstr "/home/test")) (fun _ => some true)
      (pstr "/tmp/marker.txt") (pstr "./other.txt") (pstr "/tmp/marker.txt")
      (by decide) (by decide) (by decide)).1 (pstr "/tmp") rfl (by decide)

/-- C5: a relative non-tilde candidate together with a base that is relative
and still relative after tilde resolution fails with the `InvalidBase` error. -/
theorem c5_invalid_base (home : Bytes) (fs : Bytes → Option Bool) (base cand : Bytes)
    (h1 : isAbsolute cand = false) (h2 : pathStartsWith cand [126] = false)
    (h3 : isAbsolute base = false)
    (h4 : isAbsolute (resolve_tilde_with_home home base).path = false) :
    try_resolve_in (some home) fs cand base = Except.error ResolveError.invalidBase := by
  rw [try_resolve_in, try_resolve_path, if_neg (by simp [h1]), if_neg (by simp [h2])]
  have hbase : resolveAbsoluteBase (some home) base = Except.error ResolveError.invalidBase := by
    rw [resolveAbsoluteBase, if_neg (by simp [h3])]
    simp [resolve_tilde, isRelative, h4]
  rw [hbase]

theorem c5_witness :
    try_resolve_in (some (pstr "/home/test")) (fun _ => none) (pstr "./x")
      (pstr "relative/base") = Except.error ResolveError.invalidBase :=
  c5_invalid_base (pstr "/home/test") (fun _ => none) (pstr "relative/base") (pstr "./x")
    (by decide) (by decide) (by decide) (by decide)

/-- C6 (counterexample): with candidate `./x` and base `relative/base` —
neither of which begins with a tilde in any sense — the result still depends
on whether a home directory exists: without one the call fails with
`HomeNotFound` (the code tilde-resolves every relative base, and
`resolve_tilde` looks the home directory up before checking for a tilde),
with one it fails with `InvalidBase`. -/
theorem c6_counterexample :
    pathStartsWith (pstr "./x") [126] = false
  ∧ pathStartsWith (pstr "relative/base") [126] = false
  ∧ (pstr "./x").head? ≠ some 126
  ∧ (pstr "relative/base").head? ≠ some 126
  ∧ try_resolve_in none (fun _ => none) (pstr "./x") (pstr "relative/base")
      = Except.error ResolveError.homeNotFound
  ∧ try_resolve_in (some (pstr "/home/test")) (fun _ => none) (pstr "./x")
      (pstr "relative/base") = Except.error ResolveError.invalidBase := by
  refine ⟨by decide, by decide, by decide, by decide, by decide, by decide⟩

/-- C6 (amended): `HomeNotFound` can be surfaced whenever `resolve_tilde` is
consulted with no home available — which happens not only when the candidate's
first component is `~` but also for every relative base, tilde or not.  When
the candidate does not have a `~` first component and the base is absolute,
the result of `try_resolve_in` never depends on the home directory. -/
theorem c6_home_independent (fs : Bytes → Option Bool) (base cand : Bytes)
    (h1? h2? : Option Bytes)
    (hc : pathStartsWith cand [126] = false) (hb : isAbsolute base = true) :
    try_resolve_in h1? fs cand base = try_resolve_in h2? fs cand base := by
  have hab : ∀ h? : Option Bytes, resolveAbsoluteBase h? base = Except.ok base :=
    fun h? => by rw [resolveAbsoluteBase, if_pos hb]
  cases habs : isAbsolute cand with
  | true => simp [try_resolve_in, try_resolve_path, habs]
  | false =>
    simp only [try_resolve_in, try_resolve_path, habs, hc, Bool.false_eq_true, if_false]
    rw [hab h1?, hab h2?]

theorem c6_witness :
    try_resolve_in none (fun _ => none) (pstr "./x") (pstr "/tmp")
      = try_resolve_in (some (pstr "/home/test")) (fun _ => none) (pstr "./x") (pstr "/tmp") :=
  c6_home_independent (fun _ => none) (pstr "/tmp") (pstr "./x") none
    (some (pstr "/home/test")) (by decide) (by decide)

/-- C7 (counterexample): a successful result need not be absolute: the
candidate `~/\xff` (bytes `[126, 47, 255]`) has a `~` first component but is
not valid UTF-8, so the tilde resolver hands it back unchanged and
`try_resolve_in` returns it as `Ok` — a relative path — even though the home
directory exists and is absolute. -/
theorem c7_counterexample :
    try_resolve_in (some (pstr "/home/test")) (fun _ => none) [126, 47, 255] (pstr "/tmp")
        = Except.ok (Cow.borrowed [126, 47, 255])
  ∧ isAbsolute [126, 47, 255] = false
  ∧ isValidUtf8 [126, 47, 255] = false
  ∧ isAbsolute (pstr "/home/test") = true := by
  refine ⟨by decide, by decide, by decide, by decide⟩

/-- C7 (amended): every `Ok` result of `try_resolve_in` is absolute, provided
that a candidate whose first component is `~` is valid UTF-8 and that the
home directory, when present, is absolute. -/
theorem c7_absolute_results (home? : Option Bytes) (fs : Bytes → Option Bool)
    (base cand : Bytes) (r : Cow)
    (hu : pathStartsWith cand [126] = true → isValidUtf8 cand = true)
    (hh : ∀ h, home? = some h → isAbsolute h = true)
    (hok : try_resolve_in home? fs cand base = Except.ok r) :
    isAbsolute r.path = true := by
  rw [try_resolve_in, try_resolve_path] at hok
  by_cases ha : isAbsolute cand = true
  · rw [if_pos ha] at hok
    injection hok with hok'
    rw [← hok']
    exact ha
  · rw [if_neg ha] at hok
    have hcand : isAbsolute cand = false := by
      revert ha
      cases isAbsolute cand <;> simp
    by_cases ht : pathStartsWith cand [126] = true
    · rw [if_pos ht] at hok
      cases home? with
      | none => simp [resolve_tilde] at hok
      | some home =>
        have hhome : isAbsolute home = true := hh home rfl
        simp only [resolve_tilde] at hok
        injection hok with hok'
        rw [← hok']
        obtain ⟨rr, rfl, hr⟩ := tilde_shape cand ht
        rw [resolve_tilde_with_home_eq home rr hr (hu ht)]
        rcases hr with rfl | hr
        · rw [if_pos rfl]
          exact hhome
        · have hne : rr ≠ [] := by
            intro hcon
            rw [hcon] at hr
            simp at hr
          rw [if_neg hne]
          exact isAbsolute_pathPush home _ hhome (isAbsolute_dropWhile47 rr)
    · rw [if_neg ht] at hok
      cases hR : resolveAbsoluteBase home? base with
      | error e => rw [hR] at hok; simp at hok
      | ok ab =>
        rw [hR] at hok
        dsimp only at hok
        have hababs := resolveAbsoluteBase_abs home? base ab hR
        cases hC : classifyBaseDirectory fs ab with
        | error e => rw [hC] at hok; simp at hok
        | ok bd =>
          rw [hC] at hok
          simp only [Except.ok.injEq] at hok
          rw [← hok]
          have hbd : isAbsolute bd = true := by
            rw [classifyBaseDirectory] at hC
            cases hfs : fs ab with
            | none =>
              rw [hfs] at hC
              injection hC with hC'
              rw [← hC']
              exact hababs
            | some b =>
              cases b with
              | false =>
                rw [hfs] at hC
                injection hC with hC'
                rw [← hC']
                exact hababs
              | true =>
                rw [hfs] at hC
                cases hp : parent ab with
                | none => rw [hp] at hC; simp at hC
                | some par =>
                  rw [hp] at hC
                  injection hC with hC'
                  rw [← hC']
                  exact parent_abs ab par hababs hp
          exact isAbsolute_pathPush bd cand hbd hcand

theorem c7_witness :
    isAbsolute (Cow.owned (pathPush (pstr "/tmp") (pstr "./x"))).path = true :=
  c7_absolute_results (some (pstr "/home/test")) (fun _ => none) (pstr "/tmp") (pstr "./x")
    (Cow.owned (pathPush (pstr "/tmp") (pstr "./x")))
    (by decide)
    (by intro h e; injection e with e2; cases e2; decide)
    (by decide)

/-- C8: resolution never canonicalizes: `..` segments of the candidate
survive verbatim in the joined output
(`resolve_in("../.app2/config.yml", "/home/user/.app")` is byte-for-byte
`/home/user/.app/../.app2/config.yml`, for any file system that does not
classify the base as a regular file, and any home directory), and relative
segments after a tilde survive tilde expansion verbatim. -/
theorem c8_no_canonicalization (home? : Option Bytes) (fs : Bytes → Option Bool)
    (hfs : fs (pstr "/home/user/.app") ≠ some true) :
    try_resolve_in home? fs (pstr "../.app2/config.yml") (pstr "/home/user/.app")
        = Except.ok (Cow.owned (pstr "/home/user/.app/../.app2/config.yml"))
  ∧ resolve_tilde_with_home (pstr "/home/test") (pstr "~/.config/../.vim/")
        = Cow.owned (pstr "/home/test/.config/../.vim/") := by
  constructor
  · have h3 : resolveAbsoluteBase home? (pstr "/home/user/.app")
        = Except.ok (pstr "/home/user/.app") := by
      rw [resolveAbsoluteBase, if_pos (by decide)]
    have h4 : classifyBaseDirectory fs (pstr "/home/user/.app")
        = Except.ok (pstr "/home/user/.app") := by
      rw [classifyBaseDirectory]
      cases hv : fs (pstr "/home/user/.app") with
      | none => rfl
      | some b =>
        cases b with
        | false => rfl
        | true => exact absurd hv hfs
    rw [try_resolve_in, try_resolve_path, if_neg (by decide), if_neg (by decide), h3]
    dsimp only
    rw [h4]
    decide
  · decide

theorem c8_witness :
    try_resolve_in none (fun _ => none) (pstr "../.app2/config.yml") (pstr "/home/user/.app")
        = Except.ok (Cow.owned (pstr "/home/user/.app/../.app2/config.yml"))
  ∧ resolve_tilde_with_home (pstr "/home/test") (pstr "~/.config/../.vim/")
        = Cow.owned (pstr "/home/test/.config/../.vim/") :=
  c8_no_canonicalization none (fun _ => none) (by decide)

/-- C9: the tilde resolver returns its input unchanged (borrowed, no error)
both for `~user`-style paths — a `~` followed directly by a non-separator
byte — and for paths that are not valid UTF-8; no join with the home
directory occurs in either case. -/
theorem c9_untouched (home path : Bytes) :
    (path.head? = some 126 → (path.drop 1).head? ≠ some 47 → path.drop 1 ≠ [] →
        resolve_tilde_with_home home path = Cow.borrowed path)
  ∧ (isValidUtf8 path = false → resolve_tilde_with_home home path = Cow.borrowed path) := by
  constructor
  · intro h1 h2 h3
    cases hsw : pathStartsWith path [126] with
    | false => rw [resolve_tilde_with_home, hsw]; rfl
    | true =>
      obtain ⟨r, hpe, hr⟩ := tilde_shape path hsw
      have hdrop : path.drop 1 = r := by rw [hpe]; rfl
      rcases hr with hr | hr
      · exact absurd (hdrop.trans hr) h3
      · exact absurd (hdrop ▸ hr) h2
  · intro hv
    cases hsw : pathStartsWith path [126] with
    | false => rw [resolve_tilde_with_home, hsw]; rfl
    | true => rw [resolve_tilde_with_home, hsw, if_pos rfl, hv]; rfl

theorem c9_witness :
    resolve_tilde_with_home (pstr "/home/test") (pstr "~user")
        = Cow.borrowed (pstr "~user")
  ∧ resolve_tilde_with_home (pstr "/home/test") [255]
        = Cow.borrowed [255] :=
  ⟨(c9_untouched (pstr "/home/test") (pstr "~user")).1 (by decide) (by decide) (by decide),
    (c9_untouched (pstr "/home/test") [255]).2 (by decide)⟩

/-- C10: for every absolute base that the file system does not classify as a
regular file (a directory, or a failed query), resolving the candidate `.`
in it succeeds, and the result — the base joined with `.` — is equal to the
base under Rust path equality (component equality), even though nothing is
canonicalized at the byte level. -/
theorem c10_dot_resolves_to_base (home? : Option Bytes) (fs : Bytes → Option Bool)
    (base : Bytes) (hb : isAbsolute base = true) (hfs : fs base ≠ some true) :
    try_resolve_in home? fs (pstr ".") base
        = Except.ok (Cow.owned (pathPush base (pstr ".")))
  ∧ pathEq (pathPush base (pstr ".")) base = true := by
  constructor
  · have h3 : resolveAbsoluteBase home? base = Except.ok base := by
      rw [resolveAbsoluteBase, if_pos hb]
    have h4 : classifyBaseDirectory fs base = Except.ok base := by
      rw [classifyBaseDirectory]
      cases hv : fs base with
      | none => rfl
      | some b =>
        cases b with
        | false => rfl
        | true => exact absurd hv hfs
    rw [try_resolve_in, try_resolve_path, if_neg (by decide), if_neg (by decide), h3]
    dsimp only
    rw [h4]
  · have hbase_ne : base ≠ [] := by
      intro he
      rw [he] at hb
      simp [isAbsolute] at hb
    have hps : pstr "." = [46] := by decide
    rw [hps, pathEq, components_pathPush_skipseg base [46] hbase_ne (Or.inr rfl)]
    exact decide_eq_true rfl

theorem c10_witness :
    try_resolve_in none (fun _ => none) (pstr ".") (pstr "/home/user")
        = Except.ok (Cow.owned (pathPush (pstr "/home/user") (pstr ".")))
  ∧ pathEq (pathPush (pstr "/home/user") (pstr ".")) (pstr "/home/user") = true :=
  c10_dot_resolves_to_base none (fun _ => none) (pstr "/home/user") (by decide) (by decide)

end ResolvePath
